import Mathlib

/-!
Verification of the audiobook-tagger metadata pipeline.

The Rust source (`src-tauri/src/scanner.rs`, `src-tauri/src/main.rs`) is
shallowly embedded: pure fragments become Lean functions on `List Char` /
`String`, machine strings are modelled at character level (the source only
slices at ASCII boundaries in the fragments of interest), and the external
LLM call is modelled as an oracle argument giving the outcome of each call.
-/

set_option maxRecDepth 4000

namespace Tagger

/-! ## Character/string primitives (ASCII model of the Rust `str` operations) -/

/-- ASCII model of `char::to_lowercase` as used on folder names. -/
def lowerChar (c : Char) : Char :=
  if 65 ≤ c.toNat ∧ c.toNat ≤ 90 then Char.ofNat (c.toNat + 32) else c

/-- Lowercase a character list (model of `str::to_lowercase`). -/
def lowerL (s : List Char) : List Char := s.map lowerChar

/-- ASCII model of `char::is_numeric` for the digit characters the scanner slices on. -/
def isDig (c : Char) : Bool := decide (48 ≤ c.toNat ∧ c.toNat ≤ 57)

/-- Whitespace test backing the model of `str::trim`. -/
def isWs (c : Char) : Bool :=
  decide (c.toNat = 32 ∨ c.toNat = 9 ∨ c.toNat = 10 ∨ c.toNat = 13)

/-- Model of `str::trim`: strip leading and trailing whitespace. -/
def trimL (s : List Char) : List Char :=
  ((s.dropWhile isWs).reverse.dropWhile isWs).reverse

/-- `isPre p l`: `p` is a leading segment of `l` (model of `str::starts_with`). -/
def isPre : List Char → List Char → Bool
  | [], _ => true
  | _ :: _, [] => false
  | a :: as, b :: bs => a == b && isPre as bs

/-- `containsSub s p`: the pattern `p` occurs somewhere in `s`
(model of `str::contains`). -/
def containsSub : List Char → List Char → Bool
  | [], p => isPre p []
  | c :: t, p => isPre p (c :: t) || containsSub t p

/-- `endsWithL s p`: model of `str::ends_with`. -/
def endsWithL (s p : List Char) : Bool := isPre p.reverse s.reverse

/-- Index of the first character satisfying `p` (model of `str::find` with a
character predicate). -/
def findIdxL (p : Char → Bool) : List Char → Option Nat
  | [] => none
  | c :: t => if p c then some 0 else (findIdxL p t).map (· + 1)

/-- Index of the first occurrence of the pattern `p` in `s`
(model of `str::find` with a string pattern). -/
def findSub : List Char → List Char → Option Nat
  | [], p => if isPre p [] then some 0 else none
  | c :: t, p => if isPre p (c :: t) then some 0 else (findSub t p).map (· + 1)

/-- Index of the last occurrence of the pattern `p` in `s`
(model of `str::rfind`). -/
def rfindSub : List Char → List Char → Option Nat
  | [], p => if isPre p [] then some 0 else none
  | c :: t, p =>
    match rfindSub t p with
    | some i => some (i + 1)
    | none => if isPre p (c :: t) then some 0 else none

/-- Fuelled worker for `replaceL`; the fuel is an upper bound on the input
length, making the recursion structural (hence kernel-reducible). -/
def replaceGo (p r : List Char) : Nat → List Char → List Char
  | _, [] => []
  | 0, s => s
  | fuel + 1, c :: s =>
    if p ≠ [] ∧ isPre p (c :: s) then
      r ++ replaceGo p r fuel ((c :: s).drop p.length)
    else
      c :: replaceGo p r fuel s

/-- Model of `str::replace`: replace every (leftmost, non-overlapping)
occurrence of `p` in `s` by `r`. -/
def replaceL (s p r : List Char) : List Char := replaceGo p r s.length s

/-- Fuelled worker for `splitL`. -/
def splitGo (p : List Char) : Nat → List Char → List (List Char)
  | _, [] => [[]]
  | 0, s => [s]
  | fuel + 1, c :: s =>
    if p ≠ [] ∧ isPre p (c :: s) then
      [] :: splitGo p fuel ((c :: s).drop p.length)
    else
      match splitGo p fuel s with
      | [] => [[c]]
      | h :: t => (c :: h) :: t

/-- Model of `str::split` with a string pattern: the fields between
(leftmost, non-overlapping) occurrences of `p`. -/
def splitL (s p : List Char) : List (List Char) := splitGo p s.length s

/-- The text of `s` before its first `'-'` (model of `date.split('-').next()`,
which always yields the leading field). -/
def takeBeforeDash (s : String) : String :=
  ⟨s.toList.takeWhile (fun c => !(c == '-'))⟩

/-- Model of `str::contains` on `String` (haystack first). -/
def strContains (hay needle : String) : Bool := containsSub hay.toList needle.toList

/-- Comma-space join, model of `Vec::join(", ")`. -/
def joinComma : List String → String
  | [] => ""
  | [s] => s
  | s :: rest => s ++ ", " ++ joinComma rest

/-! ## Data model (scanner.rs lines 18–84) -/

/-- `FileTags` (scanner.rs:26–37). -/
structure FileTags where
  title : Option String := none
  artist : Option String := none
  album : Option String := none
  album_artist : Option String := none
  composer : Option String := none
  genre : Option String := none
  year : Option String := none
  track : Option String := none
  comment : Option String := none
  deriving DecidableEq, Repr

/-- `RawFileData` (scanner.rs:18–24). -/
structure RawFileData where
  id : String := ""
  path : String := ""
  filename : String := ""
  tags : FileTags := {}
  deriving DecidableEq, Repr

/-- `FieldChange` (scanner.rs:58–62). -/
structure FieldChange where
  old : String
  new : String
  deriving DecidableEq, Repr

/-- `AudioFile` (scanner.rs:49–56); the `HashMap<String, FieldChange>` is
modelled as an association list in insertion order. -/
structure AudioFile where
  id : String
  path : String
  filename : String
  status : String
  changes : List (String × FieldChange)
  deriving DecidableEq, Repr

/-- `GroupType` (scanner.rs:64–69). -/
inductive GroupType where
  | Single
  | Chapters
  | Series
  deriving DecidableEq, Repr

/-- `BookMetadata` (scanner.rs:71–84). -/
structure BookMetadata where
  title : String := ""
  subtitle : Option String := none
  author : String := ""
  narrator : Option String := none
  series : Option String := none
  sequence : Option String := none
  genres : List String := []
  publisher : Option String := none
  year : Option String := none
  description : Option String := none
  isbn : Option String := none
  deriving DecidableEq, Repr

/-- `BookGroup` (scanner.rs:39–47). -/
structure BookGroup where
  id : String
  group_name : String
  group_type : GroupType
  files : List AudioFile
  metadata : BookMetadata
  total_changes : Nat
  deriving DecidableEq, Repr

/-- One entry of the `series` array of `crate::audible::AudibleMetadata`;
the module is outside `src/`, fields are those read by scanner.rs
(`s.name`, `s.position`). -/
structure AudibleSeriesEntry where
  name : String := ""
  position : Option String := none
  deriving DecidableEq, Repr

/-- `crate::audible::AudibleMetadata`; the module is outside `src/`, fields
are those read by scanner.rs (title, authors, narrators, series, publisher,
release_date, description, asin). -/
structure AudibleMetadata where
  title : String := ""
  authors : List String := []
  narrators : List String := []
  series : List AudibleSeriesEntry := []
  publisher : Option String := none
  release_date : Option String := none
  description : Option String := none
  asin : Option String := none
  deriving DecidableEq, Repr

/-- `crate::metadata::BookMetadata` (the Google Books candidate); the module
is outside `src/`, fields are those read by scanner.rs. -/
structure GoogleMetadata where
  title : String := ""
  authors : List String := []
  subtitle : Option String := none
  publisher : Option String := none
  publish_date : Option String := none
  description : Option String := none
  isbn : Option String := none
  genres : List String := []
  deriving DecidableEq, Repr

/-! ## QualityValidator (scanner.rs:1203–1251, `validate_metadata_quality`) -/

/-- `validate_metadata_quality` (scanner.rs:1203–1251): the sequential
`score += …` increments become an explicit sum. `desc.len()` is the Rust
byte length, modelled by `String.utf8ByteSize`. -/
def validate_metadata_quality (metadata : BookMetadata) (extracted_title : String)
    (audible_data : Option AudibleMetadata) : Nat :=
  (if strContains metadata.title extracted_title then 30 else 0) +
  (match audible_data with
   | some aud => if aud.narrators ≠ [] ∧ metadata.narrator.isSome then 20 else 0
   | none => 0) +
  (match metadata.description with
   | some desc => if 100 ≤ desc.utf8ByteSize ∧ desc.utf8ByteSize ≤ 1000 then 20 else 0
   | none => 0) +
  (if metadata.genres ≠ [] ∧ metadata.genres.length ≤ 3 then 15 else 0) +
  (if metadata.series.isSome ∧ metadata.sequence.isSome then 10 else 0) +
  (if metadata.publisher.isSome ∨ metadata.year.isSome then 5 else 0)

/-! ## GroupClassifier: `detect_group_type` (scanner.rs:1126–1159) -/

/-- The filename tests of `detect_group_type` (scanner.rs:1133–1143),
applied to a lowercased filename. -/
def chapterIndicator (name : List Char) : Bool :=
  containsSub name " ch ".toList || containsSub name " ch.".toList ||
  containsSub name "chapter".toList ||
  containsSub name "track".toList ||
  containsSub name "part ".toList ||
  containsSub name "disc".toList ||
  isPre "01 ".toList name || isPre "02 ".toList name || isPre "03 ".toList name ||
  isPre "1 ".toList name || isPre "2 ".toList name || isPre "3 ".toList name ||
  isPre "01-".toList name || isPre "02-".toList name || isPre "03-".toList name ||
  isPre "001 ".toList name || isPre "002 ".toList name || isPre "003 ".toList name

/-- `detect_group_type` (scanner.rs:1126–1159). The `HashSet` of title tags
is modelled by `dedup` (only its cardinality is used). -/
def detect_group_type (files : List RawFileData) : GroupType :=
  if files.length = 1 then GroupType.Single
  else
    let filenames := files.map (fun f => lowerL f.filename.toList)
    let has_chapter_indicators := filenames.any chapterIndicator
    let all_same_title := ((files.filterMap (fun f => f.tags.title)).dedup).length = 1
    if has_chapter_indicators ∨ all_same_title then GroupType.Chapters
    else if 5 < files.length then GroupType.Chapters
    else GroupType.Chapters

/-! ## MetadataMerger (scanner.rs:821–1007, `merge_all_with_gpt`) -/

/-- Outcome of one `call_gpt_merge_metadata` invocation, seen through
`serde_json::from_str::<BookMetadata>`: a parsed record, a parse failure,
or a service error. -/
inductive GptResult where
  | ok (m : BookMetadata)
  | parseErr
  | svcErr
  deriving DecidableEq, Repr

/-- The pre-extracted "reliable year" (scanner.rs:834–847): the leading
`split('-')` field of the Audible release date, else of the Google Books
publish date, else none. -/
def reliable_year (audible_data : Option AudibleMetadata)
    (google_data : Option GoogleMetadata) : Option String :=
  match audible_data.bind (fun d => d.release_date) with
  | some date => some (takeBeforeDash date)
  | none =>
    match google_data.bind (fun d => d.publish_date) with
    | some date => some (takeBeforeDash date)
    | none => none

/-- The fallback record built when no API key is configured
(scanner.rs:867–884). -/
def mergeFallbackNoKey (extracted_title extracted_author : String)
    (google_data : Option GoogleMetadata) (audible_data : Option AudibleMetadata) :
    BookMetadata :=
  { title := extracted_title
    subtitle := none
    author := extracted_author
    narrator := none
    series := none
    sequence := none
    genres := []
    publisher := google_data.bind (fun d => d.publisher)
    year := reliable_year audible_data google_data
    description := google_data.bind (fun d => d.description)
    isbn := none }

/-- The fallback record built on a GPT parse failure (scanner.rs:956–976)
or a GPT service error (scanner.rs:984–1004); the two blocks are identical. -/
def mergeFallbackAfterGpt (extracted_title extracted_author : String)
    (google_data : Option GoogleMetadata) (audible_data : Option AudibleMetadata) :
    BookMetadata :=
  { title := extracted_title
    subtitle := google_data.bind (fun d => d.subtitle)
    author := extracted_author
    narrator := audible_data.bind (fun d => d.narrators.head?)
    series := audible_data.bind (fun d => d.series.head?.map (fun s => s.name))
    sequence := audible_data.bind (fun d => d.series.head?.bind (fun s => s.position))
    genres := (google_data.map (fun d => d.genres)).getD []
    publisher := (google_data.bind (fun d => d.publisher)).orElse
      (fun _ => audible_data.bind (fun d => d.publisher))
    year := reliable_year audible_data google_data
    description := (google_data.bind (fun d => d.description)).orElse
      (fun _ => audible_data.bind (fun d => d.description))
    isbn := google_data.bind (fun d => d.isbn) }

/-- `merge_all_with_gpt` (scanner.rs:821–1007). `files` and `folder_name`
only feed the prompt text; the GPT call itself is the `gpt` oracle value. -/
def merge_all_with_gpt (_files : List RawFileData) (_folder_name : String)
    (extracted_title extracted_author : String)
    (google_data : Option GoogleMetadata) (audible_data : Option AudibleMetadata)
    (api_key : Option String) (gpt : GptResult) : BookMetadata :=
  match api_key with
  | none => mergeFallbackNoKey extracted_title extracted_author google_data audible_data
  | some key =>
    if key = "" then
      mergeFallbackNoKey extracted_title extracted_author google_data audible_data
    else
      match gpt with
      | GptResult.ok m =>
        -- scanner.rs:941–944: force the reliable year back in
        { m with year :=
            match reliable_year audible_data google_data with
            | some y => some y
            | none => m.year }
      | GptResult.parseErr =>
        mergeFallbackAfterGpt extracted_title extracted_author google_data audible_data
      | GptResult.svcErr =>
        mergeFallbackAfterGpt extracted_title extracted_author google_data audible_data

/-! ## RetryController (scanner.rs:1164–1201, `merge_all_with_gpt_retry`) -/

/-- The `for attempt in 1..=max_retries` loop of `merge_all_with_gpt_retry`
(scanner.rs:1174–1197): structural recursion on the remaining iterations.
The oracle gives the outcome of the `attempt`-th GPT merge call; the second
component of the result is the index of the call whose result is returned,
i.e. the total number of `merge_all_with_gpt` invocations performed. -/
def retryLoop (files : List RawFileData) (folder_name : String)
    (extracted_title extracted_author : String)
    (google_data : Option GoogleMetadata) (audible_data : Option AudibleMetadata)
    (api_key : Option String) (oracle : Nat → GptResult) :
    Nat → Nat → BookMetadata × Nat
  | 0, attempt =>
    -- scanner.rs:1200: after the loop is exhausted, one further merge call
    (merge_all_with_gpt files folder_name extracted_title extracted_author
       google_data audible_data api_key (oracle attempt), attempt)
  | remaining + 1, attempt =>
    let metadata := merge_all_with_gpt files folder_name extracted_title
      extracted_author google_data audible_data api_key (oracle attempt)
    if 80 ≤ validate_metadata_quality metadata extracted_title audible_data then
      (metadata, attempt)
    else
      retryLoop files folder_name extracted_title extracted_author google_data
        audible_data api_key oracle remaining (attempt + 1)

/-- `merge_all_with_gpt_retry` (scanner.rs:1164–1201), instrumented with the
number of merge calls performed (second component). -/
def merge_all_with_gpt_retry (files : List RawFileData) (folder_name : String)
    (extracted_title extracted_author : String)
    (google_data : Option GoogleMetadata) (audible_data : Option AudibleMetadata)
    (api_key : Option String) (oracle : Nat → GptResult) (max_retries : Nat) :
    BookMetadata × Nat :=
  retryLoop files folder_name extracted_title extracted_author google_data
    audible_data api_key oracle max_retries 1

/-! ## ChangeDiffer (scanner.rs:662–714; the same block appears at
scanner.rs:363–405 and scanner.rs:512–564) -/

/-- The per-file change map computed on the cache-hit, cache-miss and series
paths: title and author entries when the tag exists and differs, a narrator
entry whenever the canonical narrator is present, and a genre entry when the
canonical genre list is non-empty and differs from the prior genre string. -/
def computeChanges (tags : FileTags) (final_metadata : BookMetadata) :
    List (String × FieldChange) :=
  (match tags.title with
   | some old_title =>
     if old_title ≠ final_metadata.title then
       [("title", { old := old_title, new := final_metadata.title })]
     else []
   | none => []) ++
  (match tags.artist with
   | some old_artist =>
     if old_artist ≠ final_metadata.author then
       [("author", { old := old_artist, new := final_metadata.author })]
     else []
   | none => []) ++
  (match final_metadata.narrator with
   | some narrator =>
     [("narrator", { old := tags.comment.getD "", new := "Narrated by " ++ narrator })]
   | none => []) ++
  (if final_metadata.genres ≠ [] then
     let new_genre := joinComma final_metadata.genres
     match tags.genre with
     | some old_genre =>
       if old_genre ≠ new_genre then
         [("genre", { old := old_genre, new := new_genre })]
       else []
     | none => [("genre", { old := "", new := new_genre })]
   else [])

/-! ## BookGroup construction paths (scanner.rs `process_groups_with_gpt`) -/

/-- The `AudioFile` list built on the cache-hit (scanner.rs:512–564) and
cache-miss (scanner.rs:662–714) paths; the two blocks are identical. -/
def buildAudioFiles (final_metadata : BookMetadata) (folder_files : List RawFileData) :
    List AudioFile :=
  folder_files.map fun f =>
    let changes := computeChanges f.tags final_metadata
    { id := f.id
      path := f.path
      filename := f.filename
      status := if changes = [] then "unchanged" else "changed"
      changes := changes }

/-- The `BookGroup` pushed on the cache-hit (scanner.rs:566–575) and
cache-miss (scanner.rs:716–725) paths. -/
def resolvedGroup (group_id : Nat) (folder_name : String) (group_type : GroupType)
    (folder_files : List RawFileData) (final_metadata : BookMetadata) : BookGroup :=
  let audio_files := buildAudioFiles final_metadata folder_files
  { id := toString group_id
    group_name := folder_name
    group_type := group_type
    files := audio_files
    metadata := final_metadata
    total_changes := (audio_files.filter (fun f => ¬(f.changes = []))).length }

/-- The `BookGroup` pushed on the already-processed path (scanner.rs:482–499):
every file is marked `"unchanged"` with an empty change map and
`total_changes := 0`. -/
def alreadyProcessedGroup (group_id : Nat) (folder_name : String)
    (group_type : GroupType) (folder_files : List RawFileData)
    (final_metadata : BookMetadata) : BookGroup :=
  { id := toString group_id
    group_name := folder_name
    group_type := group_type
    files := folder_files.map fun f =>
      { id := f.id, path := f.path, filename := f.filename
        status := "unchanged", changes := [] }
    metadata := final_metadata
    total_changes := 0 }

/-- The `BookGroup` pushed for one sub-book of a series folder
(scanner.rs:363–424): a single file, with `total_changes` set to `0` or `1`
by whether its change map is empty. -/
def seriesBookGroup (group_id : Nat) (book_name : String) (file : RawFileData)
    (final_metadata : BookMetadata) : BookGroup :=
  let changes := computeChanges file.tags final_metadata
  let audio_file : AudioFile :=
    { id := file.id, path := file.path, filename := file.filename
      status := if changes = [] then "unchanged" else "changed"
      changes := changes }
  { id := toString group_id
    group_name := book_name
    group_type := GroupType.Single
    files := [audio_file]
    metadata := final_metadata
    total_changes := if audio_file.changes = [] then 0 else 1 }

/-- The status/total-changes invariant checked over a produced `BookGroup`:
each file's status is `"changed"` exactly when its change map is non-empty,
and `total_changes` counts the files with a non-empty change map. -/
def statusInvariant (g : BookGroup) : Bool :=
  g.files.all (fun f => f.status == if f.changes = [] then "unchanged" else "changed") &&
  g.total_changes == (g.files.filter (fun f => ¬(f.changes = []))).length

/-! ## MetadataCache (spec §4.4; the `crate::cache` module is outside `src/`) -/

/-- Modelled from the spec: `crate::cache::MetadataCache` is not under
`src/`. §4.4: keys are normalized (title, author) pairs, normalization is
case-stable and whitespace-stable. The key is the trimmed, lowercased pair. -/
def normKeyStr (s : String) : List Char := (trimL s.toList).map lowerChar

/-- Modelled from the spec: the normalized (title, author) cache key. -/
def normKey (title author : String) : List Char × List Char :=
  (normKeyStr title, normKeyStr author)

/-- Modelled from the spec: the cache store, a pure key-value map with no
TTL, size bound or eviction, represented as an association list. -/
abbrev MetadataCache := List ((List Char × List Char) × BookMetadata)

/-- Modelled from the spec: `store(title, author, v)` replaces the entry for
the normalized key wholesale (newest entry shadows older ones). -/
def cacheStore (c : MetadataCache) (title author : String) (v : BookMetadata) :
    MetadataCache :=
  (normKey title author, v) :: c

/-- Modelled from the spec: `lookup(title, author)` returns the entry stored
under the normalized key, if any. -/
def cacheLookup (c : MetadataCache) (title author : String) : Option BookMetadata :=
  (c.find? (fun e => decide (e.1 = normKey title author))).map (fun e => e.2)

/-! ## GenrePolicy (spec §4.8; `crate::genres::enforce_genre_policy_basic`
is outside `src/`, its caller `normalize_genres` is main.rs:367–438) -/

/-- Modelled from the spec: case/substring-tolerant matching of a free-text
genre `s` against an approved vocabulary term `a` — the approved term occurs
(case-insensitively) within the free text. -/
def genreMatches (s a : String) : Bool :=
  containsSub (lowerL s.toList) (lowerL a.toList)

/-- Modelled from the spec: the approved term a free-text genre maps onto —
the first member of the approved vocabulary it matches. -/
def firstApprovedMatch (approved : List String) (s : String) : Option String :=
  approved.find? (fun a => genreMatches s a)

/-- Modelled from the spec: `crate::genres::enforce_genre_policy_basic` is
not under `src/`. §4.8 / data model: each genre string is mapped onto the
fixed approved vocabulary (unmatched entries dropped), keeping at most 3. -/
def enforce_genre_policy_basic (approved : List String) (genres : List String) :
    List String :=
  (genres.filterMap (firstApprovedMatch approved)).take 3

/-- The per-item decision of the batch `normalize_genres` command
(main.rs:399–434): items with an absent or empty genre list are skipped, and
an item is rewritten (result `some normalized`) only when the normalized
list differs from the current one, else skipped (result `none`). -/
def normalize_genres_step (approved : List String) (genres : Option (List String)) :
    Option (List String) :=
  match genres with
  | none => none
  | some current_genres =>
    if current_genres = [] then none
    else
      let normalized_genres := enforce_genre_policy_basic approved current_genres
      if normalized_genres ≠ current_genres then some normalized_genres else none

/-! ## GroupKey normalization (scanner.rs:236–280) -/

/-- The folder-name → `GroupKey` computation of `process_groups_with_gpt`
(scanner.rs:236–280), at character level: the two `replace` canonicalization
passes, the missing-parenthesis repair, and the book-number re-assembly. -/
def group_key_of_parent (parent0 : List Char) : List Char :=
  let parent1 := replaceL (replaceL parent0 "(book #".toList "(Book #".toList)
    "(Book#".toList "(Book #".toList
  let parent2 :=
    if endsWithL parent1 ")".toList = false ∧
        containsSub parent1 "Book #".toList = true then
      match rfindSub parent1 " - ".toList with
      | some pos => parent1.take pos ++ ")".toList
      | none => parent1
    else parent1
  let parent_lower := lowerL parent2
  if containsSub parent_lower "book #".toList = true ∨
      containsSub parent_lower "book#".toList = true then
    match ((splitL parent_lower "book #".toList).get? 1).orElse
        (fun _ => (splitL parent_lower "book#".toList).get? 1) with
    | some book_match =>
      match findIdxL (fun c => !(isDig c) && !(c == ')')) book_match with
      | some book_num_end =>
        let book_id := book_match.take book_num_end
        let base_parent :=
          match findSub parent2 "(Book #".toList with
          | some pos => trimL (parent2.take pos)
          | none =>
            match findSub parent2 "(book #".toList with
            | some pos => trimL (parent2.take pos)
            | none => parent2
        base_parent ++ " (Book #".toList ++ book_id ++ ")".toList
      | none => parent2
    | none => parent2
  else parent2

/-- `GroupKey` of a parent folder name, at `String` level. -/
def group_key (parent : String) : String := ⟨group_key_of_parent parent.toList⟩

/-- A four-digit year: exactly four characters, all digits (the spec's
characterization of the pre-extracted year). -/
def isFourDigitYear (s : String) : Bool := s.toList.length == 4 && s.toList.all isDig

/-! ## Theorems -/

/-- C1: evaluation of the retry controller when quality never reaches 80.
With no API key and no external sources, every merge attempt is the
deterministic fallback scoring 30 < 80; the controller then performs a
fourth `merge_all_with_gpt` call after its three-attempt loop (the second
component counts the merge calls performed), contradicting both the claimed
bound of exactly `max_retries` (3) attempts and the code's own
"using last result" message. -/
theorem c1_retry_exhaustion_performs_extra_call :
    (merge_all_with_gpt_retry [] "folder" "T" "A" none none none
        (fun _ => GptResult.parseErr) 3).2 = 4 ∧
    validate_metadata_quality
        (merge_all_with_gpt [] "folder" "T" "A" none none none GptResult.parseErr)
        "T" none = 30 := by
  decide

/-- C2: the quality score decomposes as the sum of exactly the six claimed
components, and a record whose title equals the extracted title, with no
narrator, description, genres, series, publisher or year and no Audible
data, scores exactly 30. -/
theorem c2_quality_score_components :
    (∀ (m : BookMetadata) (et : String) (aud : Option AudibleMetadata),
      validate_metadata_quality m et aud =
        (if strContains m.title et then 30 else 0) +
        (if ((aud.map (fun a => a.narrators)).getD [] ≠ [] ∧ m.narrator.isSome)
          then 20 else 0) +
        (if m.description.any
            (fun d => decide (100 ≤ d.utf8ByteSize ∧ d.utf8ByteSize ≤ 1000))
          then 20 else 0) +
        (if (1 ≤ m.genres.length ∧ m.genres.length ≤ 3) then 15 else 0) +
        (if (m.series.isSome ∧ m.sequence.isSome) then 10 else 0) +
        (if (m.publisher.isSome ∨ m.year.isSome) then 5 else 0)) ∧
    validate_metadata_quality
      { title := "Dinosaurs Before Dark", author := "Mary Pope Osborne" }
      "Dinosaurs Before Dark" none = 30 := by
  constructor
  · intro m et aud
    have hg : (1 ≤ m.genres.length ∧ m.genres.length ≤ 3) ↔
        (m.genres ≠ [] ∧ m.genres.length ≤ 3) := by
      constructor
      · rintro ⟨h1, h2⟩
        refine ⟨?_, h2⟩
        intro hnil
        rw [hnil] at h1
        exact absurd h1 (by decide)
      · rintro ⟨h1, h2⟩
        refine ⟨?_, h2⟩
        have := List.length_pos.mpr h1
        omega
    cases aud with
    | none =>
      cases hd : m.description with
      | none => simp [validate_metadata_quality, hd, hg]
      | some d => simp [validate_metadata_quality, hd, hg]
    | some a =>
      cases hd : m.description with
      | none => simp [validate_metadata_quality, hd, hg]
      | some d => simp [validate_metadata_quality, hd, hg]
  · decide

/-- C3 counterexample: the pre-computed "reliable year" is not a four-digit
year parsed from the Audible release date — for the release date
`"May 2, 2021"` the code keeps the whole string (the field before the first
`'-'`), which is not a four-digit year. -/
theorem c3_reliable_year_not_four_digit :
    reliable_year (some { release_date := some "May 2, 2021" }) none =
      some "May 2, 2021" ∧
    isFourDigitYear "May 2, 2021" = false := by
  decide

/-- C3 (amended): the reliable year is the text before the first `'-'` of
the Audible release date, else of the Google Books publish date, else none;
and on every merge path (LLM success, parse failure, service error, no LLM
configured) a present reliable year is the returned year. -/
theorem c3_reliable_year_override :
    (∀ (files : List RawFileData) (folder et ea : String)
        (g : Option GoogleMetadata) (a : Option AudibleMetadata)
        (ak : Option String) (gpt : GptResult) (y : String),
      reliable_year a g = some y →
      (merge_all_with_gpt files folder et ea g a ak gpt).year = some y) ∧
    (∀ (a : AudibleMetadata) (g : Option GoogleMetadata) (d : String),
      a.release_date = some d →
      reliable_year (some a) g = some (takeBeforeDash d)) ∧
    (∀ (g : GoogleMetadata) (d : String), g.publish_date = some d →
      reliable_year none (some g) = some (takeBeforeDash d)) ∧
    (∀ (a : AudibleMetadata) (g : GoogleMetadata) (d : String),
      a.release_date = none → g.publish_date = some d →
      reliable_year (some a) (some g) = some (takeBeforeDash d)) ∧
    reliable_year none none = none := by
  refine ⟨?_, ?_, ?_, ?_, rfl⟩
  · intro files folder et ea g a ak gpt y hy
    cases ak with
    | none => simp [merge_all_with_gpt, mergeFallbackNoKey, hy]
    | some key =>
      by_cases hk : key = ""
      · simp [merge_all_with_gpt, mergeFallbackNoKey, hk, hy]
      · cases gpt with
        | ok m => simp [merge_all_with_gpt, hk, hy]
        | parseErr => simp [merge_all_with_gpt, mergeFallbackAfterGpt, hk, hy]
        | svcErr => simp [merge_all_with_gpt, mergeFallbackAfterGpt, hk, hy]
  · intro a g d hd
    simp [reliable_year, hd]
  · intro g d hd
    simp [reliable_year, hd]
  · intro a g d ha hd
    simp [reliable_year, ha, hd]

/-- C3 witness: the override theorem applied at a concrete input — an
Audible release date `"2021-01-02"` forces the returned year to `"2021"`
on the parse-failure path. -/
theorem c3_reliable_year_override_witness :
    (merge_all_with_gpt [] "f" "T" "A" none
        (some { release_date := some "2021-01-02" }) (some "k")
        GptResult.parseErr).year = some "2021" :=
  c3_reliable_year_override.1 [] "f" "T" "A" none
    (some { release_date := some "2021-01-02" }) (some "k")
    GptResult.parseErr "2021" (by decide)

/-- C4 counterexample: with no API key, Audible narrator/series/sequence and
the Google Books ISBN are *not* carried into the fallback record — the code
leaves them empty (scanner.rs:870–883) even when the sources supply them. -/
theorem c4_no_llm_fallback_drops_audible_fields :
    (merge_all_with_gpt [] "f" "T" "Auth"
        (some { description := some "Desc", publisher := some "Pub",
                isbn := some "9780000000000" })
        (some { narrators := ["Jane Doe"],
                series := [{ name := "S", position := some "2" }] })
        none GptResult.parseErr) =
      { title := "T", subtitle := none, author := "Auth", narrator := none,
        series := none, sequence := none, genres := [],
        publisher := some "Pub", year := none, description := some "Desc",
        isbn := none } := by
  decide

/-- C4 (amended): with no LLM service configured (no key, or an empty key),
the merge step returns the deterministic fallback taking title/author from
the extracted identity and description/publisher from Google Books, with the
reliable year applied and subtitle, narrator, series, sequence, genres and
ISBN left empty. -/
theorem c4_no_llm_fallback :
    ∀ (files : List RawFileData) (folder et ea : String)
      (g : Option GoogleMetadata) (a : Option AudibleMetadata) (gpt : GptResult),
      merge_all_with_gpt files folder et ea g a none gpt =
        { title := et, subtitle := none, author := ea, narrator := none,
          series := none, sequence := none, genres := [],
          publisher := g.bind (fun d => d.publisher),
          year := reliable_year a g,
          description := g.bind (fun d => d.description), isbn := none } ∧
      merge_all_with_gpt files folder et ea g a (some "") gpt =
        merge_all_with_gpt files folder et ea g a none gpt := by
  intro files folder et ea g a gpt
  exact ⟨rfl, by simp [merge_all_with_gpt, mergeFallbackNoKey]⟩

/-- C5 counterexample: the narrator field is *not* omitted when its old
value equals its new value — for a prior comment `"Narrated by Jane Doe"`
and canonical narrator `"Jane Doe"` the change map contains a `"narrator"`
entry whose old and new values coincide. -/
theorem c5_narrator_recorded_when_equal :
    ((computeChanges { comment := some "Narrated by Jane Doe" }
        { title := "B", author := "A", narrator := some "Jane Doe" }).lookup
      "narrator") =
      some { old := "Narrated by Jane Doe", new := "Narrated by Jane Doe" } ∧
    ({ old := "Narrated by Jane Doe", new := "Narrated by Jane Doe" } :
      FieldChange).old =
    ({ old := "Narrated by Jane Doe", new := "Narrated by Jane Doe" } :
      FieldChange).new := by
  decide

/-- The `"title"` entry of the change map, characterized
(scanner.rs:665–672). -/
theorem lookup_title_eq (t : FileTags) (m : BookMetadata) :
    (computeChanges t m).lookup "title" =
      (match t.title with
       | some old =>
         if old ≠ m.title then some { old := old, new := m.title } else none
       | none => none) := by
  simp only [computeChanges]
  cases t.title <;> cases t.artist <;> cases m.narrator <;> cases t.genre <;>
    dsimp only <;> split_ifs <;> rfl

/-- The `"author"` entry of the change map, characterized
(scanner.rs:674–681). -/
theorem lookup_author_eq (t : FileTags) (m : BookMetadata) :
    (computeChanges t m).lookup "author" =
      (match t.artist with
       | some old =>
         if old ≠ m.author then some { old := old, new := m.author } else none
       | none => none) := by
  simp only [computeChanges]
  cases t.title <;> cases t.artist <;> cases m.narrator <;> cases t.genre <;>
    dsimp only <;> split_ifs <;> rfl

/-- The `"narrator"` entry of the change map, characterized
(scanner.rs:683–688). -/
theorem lookup_narrator_eq (t : FileTags) (m : BookMetadata) :
    (computeChanges t m).lookup "narrator" =
      (match m.narrator with
       | some n => some { old := t.comment.getD "", new := "Narrated by " ++ n }
       | none => none) := by
  simp only [computeChanges]
  cases t.title <;> cases t.artist <;> cases m.narrator <;> cases t.genre <;>
    dsimp only <;> split_ifs <;> rfl

/-- The `"genre"` entry of the change map, characterized
(scanner.rs:690–705). -/
theorem lookup_genre_eq (t : FileTags) (m : BookMetadata) :
    (computeChanges t m).lookup "genre" =
      (if m.genres ≠ [] then
        match t.genre with
        | some og =>
          if og ≠ joinComma m.genres then
            some { old := og, new := joinComma m.genres }
          else none
        | none => some { old := "", new := joinComma m.genres }
      else none) := by
  simp only [computeChanges]
  cases t.title <;> cases t.artist <;> cases m.narrator <;> cases t.genre <;>
    dsimp only <;> split_ifs <;> rfl

/-- C5 (amended): title and author entries, and genre entries diffed against
a present genre tag, are omitted whenever old equals new (in particular
identical old/new titles omit the `"title"` key entirely); an absent genre
tag is diffed against the empty string; and the narrator entry is recorded
whenever the canonical narrator is present — regardless of equality — with
new value `"Narrated by {name}"` against the prior comment text. -/
theorem c5_change_map_omission :
    (∀ (t : FileTags) (m : BookMetadata) (fc : FieldChange),
      (computeChanges t m).lookup "title" = some fc → fc.old ≠ fc.new) ∧
    (∀ (t : FileTags) (m : BookMetadata) (fc : FieldChange),
      (computeChanges t m).lookup "author" = some fc → fc.old ≠ fc.new) ∧
    (∀ (t : FileTags) (m : BookMetadata) (og : String) (fc : FieldChange),
      t.genre = some og →
      (computeChanges t m).lookup "genre" = some fc → fc.old ≠ fc.new) ∧
    (∀ (t : FileTags) (m : BookMetadata),
      t.genre = none → m.genres ≠ [] →
      (computeChanges t m).lookup "genre" =
        some { old := "", new := joinComma m.genres }) ∧
    (∀ (t : FileTags) (m : BookMetadata),
      t.title = some m.title → (computeChanges t m).lookup "title" = none) ∧
    (∀ (t : FileTags) (m : BookMetadata) (n : String),
      m.narrator = some n →
      (computeChanges t m).lookup "narrator" =
        some { old := t.comment.getD "", new := "Narrated by " ++ n }) := by
  refine ⟨?_, ?_, ?_, ?_, ?_, ?_⟩
  · intro t m fc h
    cases htt : t.title with
    | none => simp [lookup_title_eq, htt] at h
    | some old =>
      simp only [lookup_title_eq, htt] at h
      by_cases he : old = m.title
      · simp [he] at h
      · rw [if_pos (by simpa using he)] at h
        cases h
        simpa using he
  · intro t m fc h
    cases hta : t.artist with
    | none => simp [lookup_author_eq, hta] at h
    | some old =>
      simp only [lookup_author_eq, hta] at h
      by_cases he : old = m.author
      · simp [he] at h
      · rw [if_pos (by simpa using he)] at h
        cases h
        simpa using he
  · intro t m og fc hog h
    simp only [lookup_genre_eq, hog] at h
    by_cases hge : m.genres = []
    · simp [hge] at h
    · rw [if_pos (by simpa using hge)] at h
      by_cases he : og = joinComma m.genres
      · simp [he] at h
      · rw [if_pos (by simpa using he)] at h
        cases h
        simpa using he
  · intro t m hog hge
    rw [lookup_genre_eq, hog, if_pos (by simpa using hge)]
  · intro t m h
    rw [lookup_title_eq, h]
    simp
  · intro t m n h
    rw [lookup_narrator_eq, h]

/-- C5 witness: the amended statement applied at concrete inputs — an
identical title is omitted, and a present narrator is recorded against the
prior comment. -/
theorem c5_change_map_omission_witness :
    (computeChanges { title := some "Same", comment := some "old comment" }
        { title := "Same", author := "A", narrator := some "N" }).lookup
      "title" = none ∧
    (computeChanges { title := some "Same", comment := some "old comment" }
        { title := "Same", author := "A", narrator := some "N" }).lookup
      "narrator" = some { old := "old comment", new := "Narrated by N" } :=
  ⟨c5_change_map_omission.2.2.2.2.1
      { title := some "Same", comment := some "old comment" }
      { title := "Same", author := "A", narrator := some "N" } rfl,
    c5_change_map_omission.2.2.2.2.2
      { title := some "Same", comment := some "old comment" }
      { title := "Same", author := "A", narrator := some "N" } "N" rfl⟩

/-- C8: the group-type detector classifies every single-file group as
`Single` and every other group (in particular every multi-file group,
whether or not it shows chapter markers, shared titles or more than five
files) as `Chapters`; it never returns `Series`. -/
theorem c8_detect_group_type_never_series :
    ∀ files : List RawFileData,
      (files.length = 1 → detect_group_type files = GroupType.Single) ∧
      (files.length ≠ 1 → detect_group_type files = GroupType.Chapters) ∧
      detect_group_type files ≠ GroupType.Series := by
  intro files
  by_cases h : files.length = 1
  · refine ⟨fun _ => ?_, fun h' => absurd h h', ?_⟩ <;>
      simp [detect_group_type, h]
  · have hc : detect_group_type files = GroupType.Chapters := by
      unfold detect_group_type
      rw [if_neg h]
      dsimp only
      split_ifs <;> rfl
    exact ⟨fun h' => absurd h' h, fun _ => hc, by rw [hc]; intro hx; cases hx⟩

/-- C8 witness: the detector applied to concrete groups — a one-file group
is `Single`, a two-file group is `Chapters` and not `Series`. -/
theorem c8_detect_group_type_witness :
    detect_group_type [{ filename := "book.m4b" }] = GroupType.Single ∧
    detect_group_type [{ filename := "a.mp3" }, { filename := "b.mp3" }] =
      GroupType.Chapters ∧
    detect_group_type [{ filename := "a.mp3" }, { filename := "b.mp3" }] ≠
      GroupType.Series :=
  ⟨(c8_detect_group_type_never_series [{ filename := "book.m4b" }]).1 rfl,
    (c8_detect_group_type_never_series _).2.1 (by decide),
    (c8_detect_group_type_never_series
      [{ filename := "a.mp3" }, { filename := "b.mp3" }]).2.2⟩

/-- C10: on each `BookGroup` construction path (already-processed,
cache-hit/cache-miss, series sub-book), every file's status is `"changed"`
exactly when its change map is non-empty, and `total_changes` equals the
number of files with a non-empty change map. -/
theorem c10_group_status_invariant :
    (∀ (gid : Nat) (name : String) (gt : GroupType) (files : List RawFileData)
        (meta : BookMetadata),
      statusInvariant (alreadyProcessedGroup gid name gt files meta) = true) ∧
    (∀ (gid : Nat) (name : String) (gt : GroupType) (files : List RawFileData)
        (meta : BookMetadata),
      statusInvariant (resolvedGroup gid name gt files meta) = true) ∧
    (∀ (gid : Nat) (name : String) (file : RawFileData) (meta : BookMetadata),
      statusInvariant (seriesBookGroup gid name file meta) = true) := by
  refine ⟨?_, ?_, ?_⟩
  · intro gid name gt files meta
    simp only [statusInvariant, alreadyProcessedGroup, Bool.and_eq_true,
      List.all_eq_true, beq_iff_eq]
    refine ⟨fun f hf => ?_, ?_⟩
    · rw [List.mem_map] at hf
      obtain ⟨x, _, hx⟩ := hf
      subst hx
      rfl
    · induction files with
      | nil => rfl
      | cons x xs ih => simpa using ih
  · intro gid name gt files meta
    simp only [statusInvariant, resolvedGroup, buildAudioFiles,
      Bool.and_eq_true, List.all_eq_true, beq_iff_eq]
    refine ⟨fun f hf => ?_, ?_⟩
    · rw [List.mem_map] at hf
      obtain ⟨x, _, hx⟩ := hf
      subst hx
      rfl
    · simp
  · intro gid name file meta
    by_cases h : computeChanges file.tags meta = [] <;>
      simp [statusInvariant, seriesBookGroup, h]

/-- C6: the metadata cache is a pure key-value store — `store` followed by
`lookup` with the same key returns the stored value verbatim, identical
normalized keys always return identical results, and key normalization is
case- and whitespace-stable. -/
theorem c6_cache_store_lookup_roundtrip :
    (∀ (c : MetadataCache) (t a : String) (v : BookMetadata),
      cacheLookup (cacheStore c t a v) t a = some v) ∧
    (∀ (c : MetadataCache) (t a t' a' : String),
      normKey t a = normKey t' a' → cacheLookup c t a = cacheLookup c t' a') ∧
    normKey "  The Hobbit " "J.R.R. TOLKIEN" =
      normKey "the hobbit" "j.r.r. tolkien" := by
  refine ⟨?_, ?_, by decide⟩
  · intro c t a v
    simp [cacheLookup, cacheStore, List.find?]
  · intro c t a t' a' h
    unfold cacheLookup
    rw [h]

/-- C6 witness: the congruence theorem applied at concrete keys — trivial
case and whitespace variance does not cause a cache miss. -/
theorem c6_cache_store_lookup_roundtrip_witness :
    cacheLookup (cacheStore [] "The Hobbit" "Tolkien" { title := "The Hobbit", author := "J.R.R. Tolkien" })
        " the hobbit " "TOLKIEN" =
      cacheLookup (cacheStore [] "The Hobbit" "Tolkien" { title := "The Hobbit", author := "J.R.R. Tolkien" })
        "The Hobbit" "Tolkien" :=
  c6_cache_store_lookup_roundtrip.2.1
    (cacheStore [] "The Hobbit" "Tolkien" { title := "The Hobbit", author := "J.R.R. Tolkien" })
    " the hobbit " "TOLKIEN" "The Hobbit" "Tolkien" (by decide)

/-! ### Substring containment: characterization, reflexivity, transitivity -/

/-- `isPre` characterized: `p` is a leading segment of `l`. -/
theorem isPre_iff {p l : List Char} : isPre p l = true ↔ ∃ t, p ++ t = l := by
  induction p generalizing l with
  | nil => simp [isPre]
  | cons a as ih =>
    cases l with
    | nil => simp [isPre]
    | cons b bs =>
      simp only [isPre, Bool.and_eq_true, beq_iff_eq]
      constructor
      · rintro ⟨rfl, h⟩
        obtain ⟨t, rfl⟩ := ih.mp h
        exact ⟨t, rfl⟩
      · rintro ⟨t, ht⟩
        injection ht with h1 h2
        exact ⟨h1, ih.mpr ⟨t, h2⟩⟩

/-- Every list is a leading segment of itself. -/
theorem isPre_self (l : List Char) : isPre l l = true :=
  isPre_iff.mpr ⟨[], by simp⟩

/-- A leading segment stays one under extension on the right. -/
theorem isPre_append_ext {q u : List Char} (v : List Char)
    (h : isPre q u = true) : isPre q (u ++ v) = true := by
  obtain ⟨t, rfl⟩ := isPre_iff.mp h
  exact isPre_iff.mpr ⟨t ++ v, by simp⟩

/-- `containsSub` characterized: the pattern occurs at some offset. -/
theorem containsSub_iff {s p : List Char} :
    containsSub s p = true ↔ ∃ i, isPre p (s.drop i) = true := by
  induction s with
  | nil =>
    simp only [containsSub, List.drop_nil]
    exact ⟨fun h => ⟨0, h⟩, fun ⟨_, h⟩ => h⟩
  | cons c t ih =>
    simp only [containsSub, Bool.or_eq_true, ih]
    constructor
    · rintro (h | ⟨i, hi⟩)
      · exact ⟨0, h⟩
      · exact ⟨i + 1, by simpa using hi⟩
    · rintro ⟨i, hi⟩
      cases i with
      | zero => exact Or.inl (by simpa using hi)
      | succ j => exact Or.inr ⟨j, by simpa using hi⟩

/-- Every list contains itself. -/
theorem containsSub_self (l : List Char) : containsSub l l = true :=
  containsSub_iff.mpr ⟨0, by simpa using isPre_self l⟩

/-- Containment is transitive. -/
theorem containsSub_trans {s p q : List Char} (h1 : containsSub s p = true)
    (h2 : containsSub p q = true) : containsSub s q = true := by
  obtain ⟨i, hi⟩ := containsSub_iff.mp h1
  obtain ⟨j, hj⟩ := containsSub_iff.mp h2
  refine containsSub_iff.mpr ⟨i + j, ?_⟩
  obtain ⟨t, ht⟩ := isPre_iff.mp hi
  rw [← List.drop_drop, ← ht, List.drop_append_eq_append_drop]
  exact isPre_append_ext _ hj

/-! ### GenrePolicy idempotence -/

/-- Matching is reflexive: an approved term matches itself. -/
theorem genreMatches_self (s : String) : genreMatches s s = true :=
  containsSub_self _

/-- The output of `firstApprovedMatch` is a fixed point: whatever approved
term a free-text genre maps onto maps onto itself. -/
theorem firstApprovedMatch_fix {approved : List String} {s x : String}
    (h : firstApprovedMatch approved s = some x) :
    firstApprovedMatch approved x = some x := by
  induction approved with
  | nil => simp [firstApprovedMatch] at h
  | cons a rest ih =>
    have hsx : genreMatches s x = true := List.find?_some h
    unfold firstApprovedMatch at h ⊢
    rw [List.find?_cons] at h ⊢
    cases hpa : genreMatches s a with
    | true =>
      rw [hpa] at h
      injection h with h
      subst h
      rw [genreMatches_self]
    | false =>
      rw [hpa] at h
      have hxa : genreMatches x a = false := by
        cases hxa : genreMatches x a with
        | false => rfl
        | true => exact absurd (containsSub_trans hsx hxa) (by simp [genreMatches] at hpa ⊢; exact hpa)
      rw [hxa]
      exact ih h

/-- `filterMap` is the identity on a list of fixed points. -/
theorem filterMap_fix {f : String → Option String} {l : List String}
    (h : ∀ x ∈ l, f x = some x) : l.filterMap f = l := by
  induction l with
  | nil => rfl
  | cons a t ih =>
    rw [List.filterMap_cons, h a (by simp)]
    rw [ih (fun x hx => h x (by simp [hx]))]

/-- Every member of a normalized genre list is a fixed point of
`firstApprovedMatch`. -/
theorem enforce_mem_fix {approved gs : List String} {x : String}
    (hx : x ∈ enforce_genre_policy_basic approved gs) :
    firstApprovedMatch approved x = some x := by
  unfold enforce_genre_policy_basic at hx
  obtain ⟨y, _, hy⟩ := List.mem_filterMap.mp (List.mem_of_mem_take hx)
  exact firstApprovedMatch_fix hy

/-- C7: genre normalization is idempotent, and the batch operation — which
rewrites an item only when the normalized list differs from the current
one — performs no rewrite on a list it has just produced. -/
theorem c7_genre_policy_idempotent :
    (∀ (approved gs : List String),
      enforce_genre_policy_basic approved (enforce_genre_policy_basic approved gs) =
        enforce_genre_policy_basic approved gs) ∧
    (∀ (approved gs out : List String),
      normalize_genres_step approved (some gs) = some out →
      normalize_genres_step approved (some out) = none) := by
  have hidem : ∀ (approved gs : List String),
      enforce_genre_policy_basic approved (enforce_genre_policy_basic approved gs) =
        enforce_genre_policy_basic approved gs := by
    intro approved gs
    have h1 : enforce_genre_policy_basic approved
        (enforce_genre_policy_basic approved gs) =
        ((enforce_genre_policy_basic approved gs).filterMap
          (firstApprovedMatch approved)).take 3 := rfl
    rw [h1, filterMap_fix (fun x hx => enforce_mem_fix hx)]
    apply List.take_of_length_le
    unfold enforce_genre_policy_basic
    exact List.length_take_le _ _
  refine ⟨hidem, ?_⟩
  intro approved gs out h
  unfold normalize_genres_step at h ⊢
  dsimp only at h ⊢
  by_cases hg : gs = []
  · rw [if_pos hg] at h
    cases h
  · rw [if_neg hg] at h
    by_cases hne : enforce_genre_policy_basic approved gs ≠ gs
    · rw [if_pos hne] at h
      injection h with h
      subst h
      by_cases ho : enforce_genre_policy_basic approved gs = []
      · rw [if_pos ho]
      · rw [if_neg ho, if_neg (by simp [hidem approved gs])]
    · rw [if_neg hne] at h
      cases h

/-- C7 witness: the batch step applied at concrete inputs — it rewrites
`["epic fantasy"]` to `["Fantasy"]` and then leaves that result alone. -/
theorem c7_genre_policy_idempotent_witness :
    normalize_genres_step ["Fantasy"] (some ["Fantasy"]) = none :=
  c7_genre_policy_idempotent.2 ["Fantasy"] ["epic fantasy"] ["Fantasy"] (by decide)

/-! ### GroupKey canonicalization: pattern-specific facts -/

/-- Digits are unchanged by lowercasing. -/
theorem lowerChar_digit {c : Char} (h : isDig c = true) : lowerChar c = c := by
  unfold lowerChar
  rw [if_neg]
  simp only [isDig, decide_eq_true_eq] at h
  omega

/-- A digit string is unchanged by lowercasing. -/
theorem lowerL_digits {N : List Char} (h : ∀ c ∈ N, isDig c = true) :
    lowerL N = N := by
  unfold lowerL
  rw [List.map_congr_left (fun c hc => lowerChar_digit (h c hc))]
  exact List.map_id' N

/-- A digit differs from any character outside the digit range. -/
theorem ne_of_isDig {c d : Char} (h : isDig c = true)
    (hd : d.toNat < 48 ∨ 57 < d.toNat) : ¬c = d := by
  intro he
  subst he
  simp only [isDig, decide_eq_true_eq] at h
  omega

/-- Appending a final character makes `endsWithL` succeed on it. -/
theorem endsWithL_concat (x : List Char) (c : Char) :
    endsWithL (x ++ [c]) [c] = true := by
  unfold endsWithL
  rw [List.reverse_append]
  simp [isPre]

/-- `findIdxL` finds nothing when no character qualifies. -/
theorem findIdxL_none {p : Char → Bool} {l : List Char}
    (h : ∀ c ∈ l, p c = false) : findIdxL p l = none := by
  induction l with
  | nil => rfl
  | cons c t ih =>
    show (if p c then some 0 else (findIdxL p t).map (· + 1)) = none
    rw [if_neg (by simp [h c (List.mem_cons_self c t)]),
      ih (fun d hd => h d (List.mem_cons_of_mem c hd))]
    rfl

/-- Gluing pointwise no-occurrence guarantees across an append. -/
theorem no_occ_append {p a b : List Char}
    (ha : ∀ i, i < a.length → isPre p ((a ++ b).drop i) = false)
    (hb : ∀ j, isPre p (b.drop j) = false) :
    ∀ i, isPre p ((a ++ b).drop i) = false := by
  intro i
  rcases lt_or_ge i a.length with h | h
  · exact ha i h
  · rw [List.drop_append_eq_append_drop, List.drop_of_length_le h,
      List.nil_append]
    exact hb (i - a.length)

/-- No proper tail of `"(book #"` starts a marker-shaped text `" (…"`. -/
theorem straddle_paren_book (m' : List Char) :
    ∀ k, 1 ≤ k → k < 7 →
      isPre (['(', 'b', 'o', 'o', 'k', ' ', '#'].drop k) (' ' :: '(' :: m') =
        false := by
  intro k h1 h2
  interval_cases k <;> simp [isPre]

/-- No proper tail of `"(Book#"` starts a marker-shaped text `" (…"`. -/
theorem straddle_paren_BookNoSp (m' : List Char) :
    ∀ k, 1 ≤ k → k < 6 →
      isPre (['(', 'B', 'o', 'o', 'k', '#'].drop k) (' ' :: m') = false := by
  intro k h1 h2
  interval_cases k <;> simp [isPre]

/-- No proper tail of `"book #"` starts `"book #…"` again. -/
theorem straddle_book_sp (m' : List Char) :
    ∀ k, 1 ≤ k → k < 6 →
      isPre (['b', 'o', 'o', 'k', ' ', '#'].drop k) ('b' :: m') = false := by
  intro k h1 h2
  interval_cases k <;> simp [isPre]

/-- No proper tail of `"book #"` starts `" (…"`. -/
theorem straddle_book_into_paren (m' : List Char) :
    ∀ k, 1 ≤ k → k < 6 →
      isPre (['b', 'o', 'o', 'k', ' ', '#'].drop k) (' ' :: '(' :: m') = false := by
  intro k h1 h2
  interval_cases k <;> simp [isPre]

/-! ### Replace/split step lemmas for the GroupKey proof -/

/-- `replaceGo` is insensitive to the exact fuel once it covers the input
length. -/
theorem replaceGo_fuel {p r : List Char} :
    ∀ (f1 f2 : Nat) (s : List Char), s.length ≤ f1 → s.length ≤ f2 →
      replaceGo p r f1 s = replaceGo p r f2 s := by
  intro f1
  induction f1 with
  | zero =>
    intro f2 s h1 _
    have : s = [] := List.eq_nil_of_length_eq_zero (Nat.le_zero.mp h1)
    subst this
    cases f2 <;> rfl
  | succ g ih =>
    intro f2 s h1 h2
    cases s with
    | nil => cases f2 <;> rfl
    | cons c t =>
      cases f2 with
      | zero => exact absurd h2 (by simp)
      | succ g2 =>
        show (if p ≠ [] ∧ isPre p (c :: t) = true then
            r ++ replaceGo p r g ((c :: t).drop p.length)
          else c :: replaceGo p r g t) =
          (if p ≠ [] ∧ isPre p (c :: t) = true then
            r ++ replaceGo p r g2 ((c :: t).drop p.length)
          else c :: replaceGo p r g2 t)
        split_ifs with hc
        · have hlen : ((c :: t).drop p.length).length ≤ g := by
            rcases hc with ⟨hp, _⟩
            have hp1 : 1 ≤ p.length := by
              cases p with
              | nil => exact absurd rfl hp
              | cons a b => simp
            rw [List.length_drop]
            simp only [List.length_cons] at h1 ⊢
            omega
          have hlen2 : ((c :: t).drop p.length).length ≤ g2 := by
            rcases hc with ⟨hp, _⟩
            have hp1 : 1 ≤ p.length := by
              cases p with
              | nil => exact absurd rfl hp
              | cons a b => simp
            rw [List.length_drop]
            simp only [List.length_cons] at h2 ⊢
            omega
          rw [ih g2 _ hlen hlen2]
        · have hlen : t.length ≤ g := by
            simp only [List.length_cons] at h1
            omega
          have hlen2 : t.length ≤ g2 := by
            simp only [List.length_cons] at h2
            omega
          rw [ih g2 t hlen hlen2]

/-- `replaceL` at a non-matching head steps over it. -/
theorem replaceL_cons_no {p r : List Char} {c : Char} {s : List Char}
    (h : isPre p (c :: s) = false) :
    replaceL (c :: s) p r = c :: replaceL s p r := by
  show replaceGo p r (s.length + 1) (c :: s) = c :: replaceGo p r s.length s
  show (if p ≠ [] ∧ isPre p (c :: s) = true then
      r ++ replaceGo p r s.length ((c :: s).drop p.length)
    else c :: replaceGo p r s.length s) = c :: replaceGo p r s.length s
  rw [if_neg (by simp [h])]

/-- `replaceL` at a matching position substitutes and skips the pattern. -/
theorem replaceL_match {p r : List Char} (t : List Char) (hp : p ≠ []) :
    replaceL (p ++ t) p r = r ++ replaceL t p r := by
  cases p with
  | nil => exact absurd rfl hp
  | cons ph pt =>
    show replaceGo (ph :: pt) r ((pt ++ t).length + 1) (ph :: (pt ++ t)) =
      r ++ replaceGo (ph :: pt) r t.length t
    have hpre : isPre (ph :: pt) (ph :: (pt ++ t)) = true :=
      isPre_append_ext t (isPre_self (ph :: pt))
    show (if (ph :: pt) ≠ [] ∧ isPre (ph :: pt) (ph :: (pt ++ t)) = true then
        r ++ replaceGo (ph :: pt) r (pt ++ t).length
          ((ph :: (pt ++ t)).drop (ph :: pt).length)
      else ph :: replaceGo (ph :: pt) r (pt ++ t).length (pt ++ t)) =
      r ++ replaceGo (ph :: pt) r t.length t
    rw [if_pos ⟨by simp, hpre⟩]
    have hdrop : (ph :: (pt ++ t)).drop (ph :: pt).length = t :=
      List.drop_left (ph :: pt) t
    rw [hdrop]
    congr 1
    exact replaceGo_fuel _ _ _
      (by rw [List.length_append]; exact Nat.le_add_left _ _) (le_refl _)

/-- No-occurrence inputs are left unchanged by `replaceGo` at any fuel. -/
theorem replaceGo_no_occ {p r : List Char} :
    ∀ (fuel : Nat) (s : List Char), (∀ i, isPre p (s.drop i) = false) →
      replaceGo p r fuel s = s := by
  intro fuel
  induction fuel with
  | zero => intro s _; cases s <;> rfl
  | succ g ih =>
    intro s h
    cases s with
    | nil => rfl
    | cons c t =>
      show (if p ≠ [] ∧ isPre p (c :: t) = true then
          r ++ replaceGo p r g ((c :: t).drop p.length)
        else c :: replaceGo p r g t) = c :: t
      rw [if_neg (by
        rintro ⟨-, hpre⟩
        have h0 := h 0
        simp only [List.drop_zero] at h0
        rw [h0] at hpre
        cases hpre)]
      rw [ih t (fun i => by simpa using h (i + 1))]

/-- No-occurrence inputs are left unchanged by `replaceL`. -/
theorem replaceL_no_occ {p r s : List Char}
    (h : ∀ i, isPre p (s.drop i) = false) : replaceL s p r = s :=
  replaceGo_no_occ _ s h

/-- `replaceL` passes over a left part free of occurrence starts. -/
theorem replaceL_append {p r : List Char} :
    ∀ (a b : List Char),
      (∀ i, i < a.length → isPre p ((a ++ b).drop i) = false) →
      replaceL (a ++ b) p r = a ++ replaceL b p r := by
  intro a
  induction a with
  | nil => intro b _; simp
  | cons c a' ih =>
    intro b h
    have h0 : isPre p (c :: (a' ++ b)) = false := by simpa using h 0 (by simp)
    show replaceL (c :: (a' ++ b)) p r = c :: (a' ++ replaceL b p r)
    rw [replaceL_cons_no h0, ih b (fun i hi => by simpa using h (i + 1) (by simpa using Nat.succ_lt_succ hi))]

/-- `splitGo` is insensitive to the exact fuel once it covers the input
length. -/
theorem splitGo_fuel {p : List Char} :
    ∀ (f1 f2 : Nat) (s : List Char), s.length ≤ f1 → s.length ≤ f2 →
      splitGo p f1 s = splitGo p f2 s := by
  intro f1
  induction f1 with
  | zero =>
    intro f2 s h1 _
    have : s = [] := List.eq_nil_of_length_eq_zero (Nat.le_zero.mp h1)
    subst this
    cases f2 <;> rfl
  | succ g ih =>
    intro f2 s h1 h2
    cases s with
    | nil => cases f2 <;> rfl
    | cons c t =>
      cases f2 with
      | zero => exact absurd h2 (by simp)
      | succ g2 =>
        show (if p ≠ [] ∧ isPre p (c :: t) = true then
            [] :: splitGo p g ((c :: t).drop p.length)
          else match splitGo p g t with
            | [] => [[c]]
            | h :: t2 => (c :: h) :: t2) =
          (if p ≠ [] ∧ isPre p (c :: t) = true then
            [] :: splitGo p g2 ((c :: t).drop p.length)
          else match splitGo p g2 t with
            | [] => [[c]]
            | h :: t2 => (c :: h) :: t2)
        split_ifs with hc
        · have hp1 : 1 ≤ p.length := by
            rcases hc with ⟨hp, -⟩
            cases p with
            | nil => exact absurd rfl hp
            | cons x y => simp
          have hlen : ((c :: t).drop p.length).length ≤ g := by
            rw [List.length_drop]
            simp only [List.length_cons] at h1 ⊢
            omega
          have hlen2 : ((c :: t).drop p.length).length ≤ g2 := by
            rw [List.length_drop]
            simp only [List.length_cons] at h2 ⊢
            omega
          rw [ih g2 _ hlen hlen2]
        · have hlen : t.length ≤ g := by
            simp only [List.length_cons] at h1
            omega
          have hlen2 : t.length ≤ g2 := by
            simp only [List.length_cons] at h2
            omega
          rw [ih g2 t hlen hlen2]

/-- `splitL` at a non-matching head extends the first field. -/
theorem splitL_cons_no {p : List Char} {c : Char} {s : List Char}
    (h : isPre p (c :: s) = false) :
    splitL (c :: s) p =
      (match splitL s p with
       | [] => [[c]]
       | h2 :: t2 => (c :: h2) :: t2) := by
  show (if p ≠ [] ∧ isPre p (c :: s) = true then
      [] :: splitGo p s.length ((c :: s).drop p.length)
    else match splitGo p s.length s with
      | [] => [[c]]
      | h2 :: t2 => (c :: h2) :: t2) =
    (match splitL s p with
     | [] => [[c]]
     | h2 :: t2 => (c :: h2) :: t2)
  rw [if_neg (by simp [h])]
  rfl

/-- `splitL` at a matching position closes the current field. -/
theorem splitL_match {p : List Char} (t : List Char) (hp : p ≠ []) :
    splitL (p ++ t) p = [] :: splitL t p := by
  cases p with
  | nil => exact absurd rfl hp
  | cons ph pt =>
    show splitGo (ph :: pt) ((pt ++ t).length + 1) (ph :: (pt ++ t)) =
      [] :: splitGo (ph :: pt) t.length t
    have hpre : isPre (ph :: pt) (ph :: (pt ++ t)) = true :=
      isPre_append_ext t (isPre_self (ph :: pt))
    show (if (ph :: pt) ≠ [] ∧ isPre (ph :: pt) (ph :: (pt ++ t)) = true then
        [] :: splitGo (ph :: pt) (pt ++ t).length
          ((ph :: (pt ++ t)).drop (ph :: pt).length)
      else match splitGo (ph :: pt) (pt ++ t).length (pt ++ t) with
        | [] => [[ph]]
        | h2 :: t2 => (ph :: h2) :: t2) =
      [] :: splitGo (ph :: pt) t.length t
    rw [if_pos ⟨by simp, hpre⟩]
    have hdrop : (ph :: (pt ++ t)).drop (ph :: pt).length = t :=
      List.drop_left (ph :: pt) t
    rw [hdrop]
    congr 1
    exact splitGo_fuel _ _ _
      (by rw [List.length_append]; exact Nat.le_add_left _ _) (le_refl _)

/-- No-occurrence inputs split into a single field at any fuel. -/
theorem splitGo_no_occ {p : List Char} :
    ∀ (fuel : Nat) (s : List Char), (∀ i, isPre p (s.drop i) = false) →
      splitGo p fuel s = [s] := by
  intro fuel
  induction fuel with
  | zero => intro s _; cases s <;> rfl
  | succ g ih =>
    intro s h
    cases s with
    | nil => rfl
    | cons c t =>
      show (if p ≠ [] ∧ isPre p (c :: t) = true then
          [] :: splitGo p g ((c :: t).drop p.length)
        else match splitGo p g t with
          | [] => [[c]]
          | h2 :: t2 => (c :: h2) :: t2) = [c :: t]
      rw [if_neg (by
        rintro ⟨-, hpre⟩
        have h0 := h 0
        simp only [List.drop_zero] at h0
        rw [h0] at hpre
        cases hpre)]
      rw [ih t (fun i => by simpa using h (i + 1))]

/-- No-occurrence inputs split into a single field. -/
theorem splitL_no_occ {p s : List Char}
    (h : ∀ i, isPre p (s.drop i) = false) : splitL s p = [s] :=
  splitGo_no_occ _ s h

/-- Splitting around a single occurrence placed between an occurrence-free
left part and an occurrence-free right part gives exactly two fields. -/
theorem splitL_decomp {p : List Char} (hp : p ≠ []) :
    ∀ (a b : List Char),
      (∀ i, i < a.length → isPre p ((a ++ (p ++ b)).drop i) = false) →
      (∀ i, isPre p (b.drop i) = false) →
      splitL (a ++ (p ++ b)) p = [a, b] := by
  intro a
  induction a with
  | nil =>
    intro b _ hb
    rw [List.nil_append, splitL_match b hp, splitL_no_occ hb]
  | cons c a' ih =>
    intro b h hb
    have h0 : isPre p (c :: (a' ++ (p ++ b))) = false := by
      simpa using h 0 (by simp)
    show splitL (c :: (a' ++ (p ++ b))) p = [c :: a', b]
    rw [splitL_cons_no h0,
      ih b (fun i hi => by simpa using h (i + 1) (by simpa using Nat.succ_lt_succ hi)) hb]

/-- A leading-segment test against a non-matching head is false. -/
theorem isPre_neq_head {ph c : Char} {p t : List Char} (h : ¬ph = c) :
    isPre (ph :: p) (c :: t) = false := by
  simp [isPre, h]

/-- Splitting an occurrence at a list boundary, long case: the pattern fits
inside the left part. -/
theorem isPre_append_long {p x m : List Char} (h : isPre p (x ++ m) = true)
    (hl : p.length ≤ x.length) : isPre p x = true := by
  obtain ⟨t, ht⟩ := isPre_iff.mp h
  refine isPre_iff.mpr ⟨x.drop p.length, ?_⟩
  have hx : p = x.take p.length := by
    have := congrArg (List.take p.length) ht
    simpa [List.take_append_eq_append_take, Nat.sub_eq_zero_of_le hl,
      List.take_of_length_le (le_refl p.length)] using this
  nth_rewrite 1 [hx]
  exact List.take_append_drop _ _

/-- Splitting an occurrence at a list boundary, short case: the pattern
straddles the boundary. -/
theorem isPre_append_short {p x m : List Char} (h : isPre p (x ++ m) = true)
    (hl : x.length ≤ p.length) :
    x = p.take x.length ∧ isPre (p.drop x.length) m = true := by
  obtain ⟨t, ht⟩ := isPre_iff.mp h
  constructor
  · have := congrArg (List.take x.length) ht
    simpa [List.take_append_eq_append_take, Nat.sub_eq_zero_of_le hl,
      List.take_of_length_le (le_refl x.length)] using this.symm
  · have := congrArg (List.drop x.length) ht
    rw [List.drop_append_eq_append_drop, List.drop_append_eq_append_drop,
      Nat.sub_eq_zero_of_le hl, List.drop_of_length_le (le_refl x.length),
      Nat.sub_self] at this
    simp only [List.drop_zero, List.nil_append] at this
    exact isPre_iff.mpr ⟨t, this⟩

/-- No occurrence of a pattern whose head avoids every character of `s`. -/
theorem no_occ_of_head_not_mem {ph : Char} {pt s : List Char}
    (h : ∀ c ∈ s, ¬c = ph) : ∀ i, isPre (ph :: pt) (s.drop i) = false := by
  intro i
  cases hd : s.drop i with
  | nil => rfl
  | cons c t =>
    have hc : c ∈ s := by
      have : c ∈ s.drop i := by rw [hd]; exact List.mem_cons_self c t
      exact List.mem_of_mem_drop this
    exact isPre_neq_head (fun he => h c hc he.symm)

/-- Occurrences starting inside the left part of an append are impossible
when the left part does not contain the pattern and no proper pattern tail
starts the right part. -/
theorem no_occ_start_in_left {p base m : List Char}
    (hinside : containsSub base p = false)
    (hstraddle : ∀ k, 1 ≤ k → k < p.length → isPre (p.drop k) m = false) :
    ∀ i, i < base.length → isPre p ((base ++ m).drop i) = false := by
  intro i hi
  cases hocc : isPre p ((base ++ m).drop i) with
  | false => rfl
  | true =>
    exfalso
    rw [List.drop_append_eq_append_drop, Nat.sub_eq_zero_of_le (le_of_lt hi),
      List.drop_zero] at hocc
    have hxlen : 1 ≤ (base.drop i).length := by
      rw [List.length_drop]
      omega
    rcases le_or_lt p.length (base.drop i).length with hl | hl
    · have : containsSub base p = true :=
        containsSub_iff.mpr ⟨i, isPre_append_long hocc hl⟩
      rw [this] at hinside
      cases hinside
    · obtain ⟨_, htail⟩ := isPre_append_short hocc (le_of_lt hl)
      have := hstraddle (base.drop i).length hxlen hl
      rw [this] at htail
      cases htail

/-- Extending a no-occurrence guarantee across an append. -/
theorem containsSub_append_false {a m p : List Char}
    (ha : containsSub a p = false)
    (hstraddle : ∀ k, 1 ≤ k → k < p.length → isPre (p.drop k) m = false)
    (hm : containsSub m p = false) : containsSub (a ++ m) p = false := by
  cases h : containsSub (a ++ m) p with
  | false => rfl
  | true =>
    exfalso
    obtain ⟨i, hi⟩ := containsSub_iff.mp h
    rcases lt_or_ge i a.length with hlt | hge
    · have := no_occ_start_in_left ha hstraddle i hlt
      rw [this] at hi
      cases hi
    · rw [List.drop_append_eq_append_drop,
        List.drop_of_length_le hge, List.nil_append] at hi
      have : containsSub m p = true := containsSub_iff.mpr ⟨i - a.length, hi⟩
      rw [this] at hm
      cases hm

/-- A pattern placed between two lists is contained in the whole. -/
theorem containsSub_append_mid (a p b : List Char) :
    containsSub (a ++ (p ++ b)) p = true := by
  refine containsSub_iff.mpr ⟨a.length, ?_⟩
  rw [List.drop_left]
  exact isPre_append_ext _ (isPre_self p)

/-- Lowercasing preserves leading segments. -/
theorem isPre_lowerL {p l : List Char} (h : isPre p l = true) :
    isPre (lowerL p) (lowerL l) = true := by
  obtain ⟨t, rfl⟩ := isPre_iff.mp h
  exact isPre_iff.mpr ⟨lowerL t, by simp [lowerL]⟩

/-- Lowercasing preserves containment. -/
theorem containsSub_lowerL {s q : List Char} (h : containsSub s q = true) :
    containsSub (lowerL s) (lowerL q) = true := by
  obtain ⟨i, hi⟩ := containsSub_iff.mp h
  refine containsSub_iff.mpr ⟨i, ?_⟩
  have : lowerL (s.drop i) = (lowerL s).drop i := by
    simp [lowerL, List.map_drop]
  rw [← this]
  exact isPre_lowerL hi

/-- Transfer an absence of a lowercase pattern to the original string. -/
theorem containsSub_false_of_lower {base p pat : List Char}
    (h1 : containsSub (lowerL base) pat = false)
    (h2 : containsSub (lowerL p) pat = true) : containsSub base p = false := by
  cases hc : containsSub base p with
  | false => rfl
  | true =>
    exfalso
    have := containsSub_trans (containsSub_lowerL hc) h2
    rw [this] at h1
    cases h1

/-- Characters of a digit string (plus the closing parenthesis) never equal
`'('`. -/
theorem marker_tail_ne_paren {N : List Char} (hdig : ∀ c ∈ N, isDig c = true) :
    ∀ c ∈ N ++ [')'], ¬c = '(' := by
  intro c hc
  rcases List.mem_append.mp hc with h | h
  · exact ne_of_isDig (hdig c h) (Or.inl (by decide))
  · simp only [List.mem_singleton] at h
    subst h
    decide

/-- Characters of a digit string (plus the closing parenthesis) never equal
`'b'`. -/
theorem marker_tail_ne_b {N : List Char} (hdig : ∀ c ∈ N, isDig c = true) :
    ∀ c ∈ N ++ [')'], ¬c = 'b' := by
  intro c hc
  rcases List.mem_append.mp hc with h | h
  · exact ne_of_isDig (hdig c h) (Or.inr (by decide))
  · simp only [List.mem_singleton] at h
    subst h
    decide

/-- `"(Book#"` does not occur in the canonical suffix `" (Book #N)"`. -/
theorem canonical_suffix_prefix_no_occ (X : List Char) :
    ∀ i, i < 8 →
      isPre ['(', 'B', 'o', 'o', 'k', '#']
        (([' ', '(', 'B', 'o', 'o', 'k', ' ', '#'] ++ X).drop i) = false := by
  intro i h
  interval_cases i <;> simp [isPre]

/-- `"(book #"` does not occur in the variant suffix `" (Book#N)"`. -/
theorem variant2_prefix_no_occ (X : List Char) :
    ∀ i, i < 7 →
      isPre ['(', 'b', 'o', 'o', 'k', ' ', '#']
        (([' ', '(', 'B', 'o', 'o', 'k', '#'] ++ X).drop i) = false := by
  intro i h
  interval_cases i <;> simp [isPre]

/-- Both canonicalization `replace` passes applied to the first claimed
variant `"<base> (book #N)"` produce the canonical `"<base> (Book #N)"`. -/
theorem v1_replace (base N : List Char)
    (hb1 : containsSub (lowerL base) "book #".toList = false)
    (hb2 : containsSub (lowerL base) "book#".toList = false)
    (hdig : ∀ c ∈ N, isDig c = true) :
    replaceL (replaceL (base ++ (" (book #".toList ++ (N ++ [')'])))
        "(book #".toList "(Book #".toList) "(Book#".toList "(Book #".toList =
      base ++ (" (Book #".toList ++ (N ++ [')'])) := by
  have hbne := marker_tail_ne_paren hdig
  have hinside1 : containsSub base "(book #".toList = false :=
    containsSub_false_of_lower hb1 (by decide)
  have hinside2 : containsSub base "(Book#".toList = false :=
    containsSub_false_of_lower hb2 (by decide)
  have hstart1 : ∀ i, i < base.length →
      isPre "(book #".toList
        ((base ++ (" (book #".toList ++ (N ++ [')']))).drop i) = false :=
    no_occ_start_in_left hinside1
      (fun k h1 h2 => straddle_paren_book ("book #".toList ++ (N ++ [')'])) k h1 h2)
  have hin1 : replaceL (base ++ (" (book #".toList ++ (N ++ [')'])))
      "(book #".toList "(Book #".toList =
      base ++ (" (Book #".toList ++ (N ++ [')'])) := by
    rw [replaceL_append base _ hstart1]
    congr 1
    show replaceL
        (' ' :: (['(', 'b', 'o', 'o', 'k', ' ', '#'] ++ (N ++ [')'])))
        ['(', 'b', 'o', 'o', 'k', ' ', '#'] ['(', 'B', 'o', 'o', 'k', ' ', '#'] =
      ' ' :: (['(', 'B', 'o', 'o', 'k', ' ', '#'] ++ (N ++ [')']))
    have hskip : isPre ['(', 'b', 'o', 'o', 'k', ' ', '#']
        (' ' :: (['(', 'b', 'o', 'o', 'k', ' ', '#'] ++ (N ++ [')']))) = false := rfl
    rw [replaceL_cons_no hskip, replaceL_match (N ++ [')']) (by decide),
      replaceL_no_occ (no_occ_of_head_not_mem hbne)]
  rw [hin1]
  have hstart2 : ∀ i, i < base.length →
      isPre "(Book#".toList
        ((base ++ (" (Book #".toList ++ (N ++ [')']))).drop i) = false :=
    no_occ_start_in_left hinside2
      (fun k h1 h2 => straddle_paren_BookNoSp ("(Book #".toList ++ (N ++ [')'])) k h1 h2)
  have hmB : ∀ j, isPre "(Book#".toList
      ((" (Book #".toList ++ (N ++ [')'])).drop j) = false :=
    no_occ_append (canonical_suffix_prefix_no_occ (N ++ [')']))
      (no_occ_of_head_not_mem hbne)
  exact replaceL_no_occ (no_occ_append hstart2 hmB)

/-- Both canonicalization `replace` passes applied to the second claimed
variant `"<base> (Book#N)"` produce the canonical `"<base> (Book #N)"`. -/
theorem v2_replace (base N : List Char)
    (hb1 : containsSub (lowerL base) "book #".toList = false)
    (hb2 : containsSub (lowerL base) "book#".toList = false)
    (hdig : ∀ c ∈ N, isDig c = true) :
    replaceL (replaceL (base ++ (" (Book#".toList ++ (N ++ [')'])))
        "(book #".toList "(Book #".toList) "(Book#".toList "(Book #".toList =
      base ++ (" (Book #".toList ++ (N ++ [')'])) := by
  have hbne := marker_tail_ne_paren hdig
  have hinside1 : containsSub base "(book #".toList = false :=
    containsSub_false_of_lower hb1 (by decide)
  have hinside2 : containsSub base "(Book#".toList = false :=
    containsSub_false_of_lower hb2 (by decide)
  have hstart1 : ∀ i, i < base.length →
      isPre "(book #".toList
        ((base ++ (" (Book#".toList ++ (N ++ [')']))).drop i) = false :=
    no_occ_start_in_left hinside1
      (fun k h1 h2 => straddle_paren_book ("Book#".toList ++ (N ++ [')'])) k h1 h2)
  have hm2 : ∀ j, isPre "(book #".toList
      ((" (Book#".toList ++ (N ++ [')'])).drop j) = false :=
    no_occ_append (variant2_prefix_no_occ (N ++ [')']))
      (no_occ_of_head_not_mem hbne)
  have hin1 : replaceL (base ++ (" (Book#".toList ++ (N ++ [')'])))
      "(book #".toList "(Book #".toList =
      base ++ (" (Book#".toList ++ (N ++ [')'])) :=
    replaceL_no_occ (no_occ_append hstart1 hm2)
  rw [hin1]
  have hstart2 : ∀ i, i < base.length →
      isPre "(Book#".toList
        ((base ++ (" (Book#".toList ++ (N ++ [')']))).drop i) = false :=
    no_occ_start_in_left hinside2
      (fun k h1 h2 => straddle_paren_BookNoSp ("(Book#".toList ++ (N ++ [')'])) k h1 h2)
  rw [replaceL_append base _ hstart2]
  congr 1
  show replaceL (' ' :: (['(', 'B', 'o', 'o', 'k', '#'] ++ (N ++ [')'])))
      ['(', 'B', 'o', 'o', 'k', '#'] ['(', 'B', 'o', 'o', 'k', ' ', '#'] =
    ' ' :: (['(', 'B', 'o', 'o', 'k', ' ', '#'] ++ (N ++ [')']))
  have hskip : isPre ['(', 'B', 'o', 'o', 'k', '#']
      (' ' :: (['(', 'B', 'o', 'o', 'k', '#'] ++ (N ++ [')']))) = false := rfl
  rw [replaceL_cons_no hskip, replaceL_match (N ++ [')']) (by decide),
    replaceL_no_occ (no_occ_of_head_not_mem hbne)]

/-- `lowerL` distributes over append. -/
theorem lowerL_append (a b : List Char) :
    lowerL (a ++ b) = lowerL a ++ lowerL b := by
  simp [lowerL]

/-- No proper tail of `"book #"` starts `" ("`. -/
theorem straddle_book_short :
    ∀ k, 1 ≤ k → k < 6 →
      isPre (['b', 'o', 'o', 'k', ' ', '#'].drop k) [' ', '('] = false := by
  intro k h1 h2
  interval_cases k <;> decide

/-- Once both `replace` passes yield the canonical `"<base> (Book #N)"`, the
rest of the GroupKey computation returns it unchanged. -/
theorem group_key_tail (base N : List Char)
    (hb1 : containsSub (lowerL base) "book #".toList = false)
    (hdig : ∀ c ∈ N, isDig c = true) (v : List Char)
    (hrepl : replaceL (replaceL v "(book #".toList "(Book #".toList)
        "(Book#".toList "(Book #".toList =
      base ++ (" (Book #".toList ++ (N ++ [')']))) :
    group_key_of_parent v = base ++ (" (Book #".toList ++ (N ++ [')'])) := by
  unfold group_key_of_parent
  rw [hrepl]
  dsimp only
  have hends : endsWithL (base ++ (" (Book #".toList ++ (N ++ [')'])))
      ")".toList = true := by
    have h1 : base ++ (" (Book #".toList ++ (N ++ [')'])) =
        (base ++ (" (Book #".toList ++ N)) ++ [')'] := by
      simp [List.append_assoc]
    rw [h1]
    exact endsWithL_concat _ ')'
  have hc1 : ¬(endsWithL (base ++ (" (Book #".toList ++ (N ++ [')'])))
      ")".toList = false ∧
      containsSub (base ++ (" (Book #".toList ++ (N ++ [')'])))
        "Book #".toList = true) := by
    rw [hends]
    simp
  simp only [if_neg hc1]
  have hlow : lowerL (base ++ (" (Book #".toList ++ (N ++ [')']))) =
      lowerL base ++ (" (book #".toList ++ (N ++ [')'])) := by
    rw [lowerL_append, lowerL_append, lowerL_append, lowerL_digits hdig,
      (by decide : lowerL " (Book #".toList = " (book #".toList),
      (by decide : lowerL [')'] = [')'])]
  rw [hlow]
  have hcond : containsSub (lowerL base ++ (" (book #".toList ++ (N ++ [')'])))
      "book #".toList = true := by
    have h2 := containsSub_append_mid (lowerL base ++ [' ', '('])
      "book #".toList (N ++ [')'])
    rw [List.append_assoc] at h2
    exact h2
  simp only [if_pos (Or.inl hcond)]
  have hstartA : ∀ i, i < (lowerL base ++ [' ', '(']).length →
      isPre "book #".toList
        (((lowerL base ++ [' ', '(']) ++
          ("book #".toList ++ (N ++ [')']))).drop i) = false := by
    apply no_occ_start_in_left
    · exact containsSub_append_false hb1
        (fun k h1 h2 => straddle_book_short k h1 h2) (by decide)
    · intro k h1 h2
      exact straddle_book_sp ("ook #".toList ++ (N ++ [')'])) k h1 h2
  have hB : ∀ j, isPre "book #".toList ((N ++ [')']).drop j) = false :=
    no_occ_of_head_not_mem (marker_tail_ne_b hdig)
  have hsplit : splitL (lowerL base ++ (" (book #".toList ++ (N ++ [')'])))
      "book #".toList = [lowerL base ++ [' ', '('], N ++ [')']] := by
    have h3 := splitL_decomp (by decide) (lowerL base ++ [' ', '('])
      (N ++ [')']) hstartA hB
    rw [List.append_assoc] at h3
    exact h3
  rw [hsplit]
  have hfind : findIdxL (fun c => !(isDig c) && !(c == ')')) (N ++ [')']) =
      none := by
    apply findIdxL_none
    intro c hc
    rcases List.mem_append.mp hc with h | h
    · simp [hdig c h]
    · simp only [List.mem_singleton] at h
      subst h
      decide
  simp only [List.get?_cons_succ, List.get?_cons_zero, Option.orElse, hfind]

/-- C9 counterexample: for the base text `"book #5 tales"` (which itself
contains a book-number marker) the two claimed variants do map to one
common key, but that key is `"book #5 tales (Book #5)"` — the number is
taken from the base — not the claimed canonical `"book #5 tales (Book #3)"`. -/
theorem c9_group_key_counterexample :
    group_key "book #5 tales (book #3)" = "book #5 tales (Book #5)" ∧
    group_key "book #5 tales (Book#3)" = "book #5 tales (Book #5)" ∧
    ("book #5 tales (Book #5)" : String) ≠ "book #5 tales (Book #3)" := by
  decide

/-- C9 (amended): for every base text whose lowercase contains neither
`"book #"` nor `"book#"`, and every digit string `N`, the parent folder
names `"<base> (book #N)"` and `"<base> (Book#N)"` are both mapped to the
same GroupKey, the canonical form `"<base> (Book #N)"`. -/
theorem c9_group_key_canonical (base N : List Char)
    (hb1 : containsSub (lowerL base) "book #".toList = false)
    (hb2 : containsSub (lowerL base) "book#".toList = false)
    (hdig : ∀ c ∈ N, isDig c = true) :
    group_key_of_parent (base ++ (" (book #".toList ++ (N ++ [')']))) =
      base ++ (" (Book #".toList ++ (N ++ [')'])) ∧
    group_key_of_parent (base ++ (" (Book#".toList ++ (N ++ [')']))) =
      base ++ (" (Book #".toList ++ (N ++ [')'])) :=
  ⟨group_key_tail base N hb1 hdig _ (v1_replace base N hb1 hb2 hdig),
    group_key_tail base N hb1 hdig _ (v2_replace base N hb1 hb2 hdig)⟩

/-- C9 witness: the canonicalization theorem applied at a concrete folder
name — `"Magic Tree House (book #12)"` and `"Magic Tree House (Book#12)"`
both normalize to `"Magic Tree House (Book #12)"`. -/
theorem c9_group_key_canonical_witness :
    group_key_of_parent ("Magic Tree House".toList ++
        (" (book #".toList ++ ("12".toList ++ [')']))) =
      "Magic Tree House".toList ++ (" (Book #".toList ++ ("12".toList ++ [')'])) ∧
    group_key_of_parent ("Magic Tree House".toList ++
        (" (Book#".toList ++ ("12".toList ++ [')']))) =
      "Magic Tree House".toList ++ (" (Book #".toList ++ ("12".toList ++ [')'])) :=
  c9_group_key_canonical "Magic Tree House".toList "12".toList
    (by decide) (by decide) (by decide)

end Tagger
